import Mathlib

/-!
Verification development for the YieldAggregator Stylus contract
(src/packages/stylus/yield-aggregator/src/lib.rs).

Shallow embedding conventions:
* `U256` values are `Nat` with an explicit `% 2 ^ 256` wherever the Rust code
  uses the ruint wrapping operators (`+`, `+=`, `-`);
* `Address` values are `Nat` (a 20-byte big-endian quantity; bytes 16..19 of
  an address are its value modulo `2 ^ 32`);
* the persistent `mapping(address => uint256)` is an association list with a
  zero default on lookup, written by overwrite-or-append;
* `Uint::to::<u32>()` panics when the value does not fit in 32 bits; a panic
  is modelled as `Option.none` on the operation's result;
* the host reverts all storage writes when a call errors or panics, so the
  post-state of a failed call is the pre-state; the `runAdd` / `runRemove`
  functions package that transaction semantics.
-/

namespace YieldAgg

/-- Models ruint `Uint::to::<u32>()`: succeeds exactly when the value fits
in 32 bits, otherwise the Rust code panics (here: `none`). -/
def toU32 (x : Nat) : Option Nat :=
  if x < 2 ^ 32 then some x else none

/-- Lookup in the storage mapping: a missing key reads as the zero slot,
matching EVM-style storage semantics. -/
def mapGet (m : List (Nat × Nat)) (k : Nat) : Nat :=
  match m.find? (fun kv => kv.1 == k) with
  | some kv => kv.2
  | none => 0

/-- Write to the storage mapping (`mapping.insert` in the Stylus SDK):
overwrite the binding for the key if present, else append it. -/
def mapInsert (m : List (Nat × Nat)) (k v : Nat) : List (Nat × Nat) :=
  match m with
  | [] => [(k, v)]
  | kv :: rest => if kv.1 == k then (k, v) :: rest else kv :: mapInsert rest k v

/-- The contract's error enum: `UnauthorizedAccount` and `InvalidOwner`,
both forwarded from the OpenZeppelin `Ownable` component. -/
inductive ContractError where
  | unauthorizedAccount (account : Nat)
  | invalidOwner (owner : Nat)
deriving DecidableEq

/-- The three events declared in the contract's `sol!` block. -/
inductive Event where
  | protocolAdded (protocol owner : Nat)
  | protocolRemoved (protocol owner : Nat)
  | yieldCalculated (user totalYield protocolCount : Nat)
deriving DecidableEq

/-- The contract storage: the `Ownable` component is represented by its
single `owner` slot; `protocols` is the `address[]` storage array;
`protocol_index` the `mapping(address => uint256)`; `protocol_count` the
`uint256` counter. -/
structure YieldAggregator where
  owner : Nat
  protocols : List Nat
  protocol_index : List (Nat × Nat)
  protocol_count : Nat
deriving DecidableEq

/-- The linear existence scan shared by `add_protocol` and
`is_protocol_tracked`: for `i in 0..n`, test whether slot `i` of the storage
array holds `protocol` (`StorageVec::get` returns `None` past the end). -/
def scan_contains (entries : List Nat) (n : Nat) (protocol : Nat) : Bool :=
  (List.range n).any (fun i => decide (entries[i]? = some protocol))

/-- The find loop of `remove_protocol`: first index `i < n` whose slot holds
`protocol` (the loop breaks at the first hit). -/
def scan_find (entries : List Nat) (n : Nat) (protocol : Nat) : Option Nat :=
  (List.range n).findSome? (fun i => if entries[i]? = some protocol then some i else none)

/-- The list produced by the collection loop of `get_protocols`: slots
`0..n` of the storage array, keeping those that are occupied. -/
def listed (entries : List Nat) (n : Nat) : List Nat :=
  (List.range n).filterMap (fun i => entries[i]?)

/-- `get_mock_yield` from the source: the seed is the `u32` built from bytes
16..19 of the 20-byte address, i.e. the address modulo `2 ^ 32`; the yield is
one of three constants chosen by `seed % 3`. The `_user` argument is unused
in the source. -/
def get_mock_yield (protocol _user : Nat) : Nat :=
  match (protocol % 2 ^ 32) % 3 with
  | 0 => 5000000000000000
  | 1 => 8000000000000000
  | _ => 3000000000000000

/-- One iteration of the accumulation loop of `get_total_yield`:
`total_yield += self.get_mock_yield(protocol_address, user)` with the ruint
wrapping `+=`, skipped when the slot read returns `None`. -/
def yield_step (user : Nat) (entries : List Nat) (total_yield i : Nat) : Nat :=
  match entries[i]? with
  | some protocol_address => (total_yield + get_mock_yield protocol_address user) % 2 ^ 256
  | none => total_yield

/-- The contract constructor: the OpenZeppelin `Ownable` constructor rejects
the zero address with `InvalidOwner` and otherwise installs the owner; then
`protocol_count` is set to zero. Fresh storage makes the array and the
mapping empty. -/
def constructor (initial_owner : Nat) : Except ContractError YieldAggregator :=
  if initial_owner = 0 then
    Except.error (ContractError.invalidOwner 0)
  else
    Except.ok { owner := initial_owner, protocols := [], protocol_index := [],
                protocol_count := 0 }

/-- `add_protocol`: owner check first, then the duplicate scan over
`0..protocol_count.to::<u32>()` (the conversion panics at `2 ^ 32`); a
present protocol is a successful no-op; otherwise push, record the old count
in the index mapping, and bump the count with the wrapping `+`. -/
def add_protocol (caller protocol : Nat) (s : YieldAggregator) :
    Option (Except ContractError YieldAggregator) :=
  if caller = s.owner then
    match toU32 s.protocol_count with
    | none => none
    | some n =>
      if scan_contains s.protocols n protocol then
        some (Except.ok s)
      else
        some (Except.ok { s with
          protocols := s.protocols ++ [protocol],
          protocol_index := mapInsert s.protocol_index protocol s.protocol_count,
          protocol_count := (s.protocol_count + 1) % 2 ^ 256 })
  else
    some (Except.error (ContractError.unauthorizedAccount caller))

/-- `remove_protocol`: owner check first, then the find loop; when an index
is found the code pops the *last* array element, zeroes the index-mapping
entry of `protocol`, and decrements the count (the ruint wrapping `-`; in
this branch the count is at least 1, so plain `Nat` subtraction coincides
with it); when nothing is found it is a successful no-op. -/
def remove_protocol (caller protocol : Nat) (s : YieldAggregator) :
    Option (Except ContractError YieldAggregator) :=
  if caller = s.owner then
    match toU32 s.protocol_count with
    | none => none
    | some n =>
      match scan_find s.protocols n protocol with
      | some _ =>
        some (Except.ok { s with
          protocols := s.protocols.dropLast,
          protocol_index := mapInsert s.protocol_index protocol 0,
          protocol_count := s.protocol_count - 1 })
      | none => some (Except.ok s)
  else
    some (Except.error (ContractError.unauthorizedAccount caller))

/-- `get_total_yield`: fold the accumulation loop over `0..count.to_u32`,
starting from `U256::ZERO`. -/
def get_total_yield (s : YieldAggregator) (user : Nat) : Option Nat :=
  match toU32 s.protocol_count with
  | none => none
  | some n => some ((List.range n).foldl (yield_step user s.protocols) 0)

/-- `get_protocols`: collect the occupied slots of `0..count.to_u32`. -/
def get_protocols (s : YieldAggregator) : Option (List Nat) :=
  match toU32 s.protocol_count with
  | none => none
  | some n => some (listed s.protocols n)

/-- `get_protocol_count`: read the counter. -/
def get_protocol_count (s : YieldAggregator) : Nat :=
  s.protocol_count

/-- `is_protocol_tracked`: the same linear scan as the duplicate check. -/
def is_protocol_tracked (s : YieldAggregator) (protocol : Nat) : Option Bool :=
  match toU32 s.protocol_count with
  | none => none
  | some n => some (scan_contains s.protocols n protocol)

/-- Events emitted by `add_protocol`. The source declares `ProtocolAdded` in
its `sol!` block but `add_protocol` contains no log statement on any path,
so the emitted list is empty. -/
def add_protocol_emitted (_caller _protocol : Nat) (_s : YieldAggregator) : List Event :=
  []

/-- Events emitted by `remove_protocol`. The source declares
`ProtocolRemoved` but `remove_protocol` contains no log statement. -/
def remove_protocol_emitted (_caller _protocol : Nat) (_s : YieldAggregator) : List Event :=
  []

/-- Events emitted by `get_total_yield`. The source declares
`YieldCalculated` but `get_total_yield` contains no log statement. -/
def get_total_yield_emitted (_s : YieldAggregator) (_user : Nat) : List Event :=
  []

/-- Transaction semantics of an `add_protocol` call: on a revert (error or
panic) the host discards all storage writes, so the post-state is the
pre-state. -/
def runAdd (caller protocol : Nat) (s : YieldAggregator) : YieldAggregator :=
  match add_protocol caller protocol s with
  | some (Except.ok s2) => s2
  | _ => s

/-- Transaction semantics of a `remove_protocol` call. -/
def runRemove (caller protocol : Nat) (s : YieldAggregator) : YieldAggregator :=
  match remove_protocol caller protocol s with
  | some (Except.ok s2) => s2
  | _ => s

/-- The registry well-formedness invariant: the stored counter equals the
length of the storage array. -/
abbrev WF (s : YieldAggregator) : Prop :=
  s.protocol_count = s.protocols.length

/-- The specification-side aggregate: the plain (unbounded, non-wrapping)
sum of the per-protocol mock yields over the listed protocols, written from
the spec's aggregation sum law for comparison with `get_total_yield`. -/
def spec_total_yield (s : YieldAggregator) (user : Nat) : Nat :=
  ((listed s.protocols s.protocol_count).map (fun p => get_mock_yield p user)).sum

/-! ### Helper lemmas -/

lemma toU32_of_lt {x : Nat} (h : x < 2 ^ 32) : toU32 x = some x := by
  unfold toU32
  rw [if_pos h]

lemma toU32_of_not_lt {x : Nat} (h : ¬ x < 2 ^ 32) : toU32 x = none := by
  unfold toU32
  rw [if_neg h]

lemma scan_contains_iff (l : List Nat) (p : Nat) :
    scan_contains l l.length p = true ↔ p ∈ l := by
  unfold scan_contains
  rw [List.any_eq_true]
  constructor
  · rintro ⟨i, _, hd⟩
    have hi : l[i]? = some p := of_decide_eq_true hd
    exact List.mem_iff_getElem?.mpr ⟨i, hi⟩
  · intro hp
    obtain ⟨i, hi, hget⟩ := List.getElem_of_mem hp
    refine ⟨i, List.mem_range.mpr hi, ?_⟩
    exact decide_eq_true (by rw [List.getElem?_eq_getElem hi, hget])

lemma scan_find_isSome (l : List Nat) (n p : Nat) :
    (scan_find l n p).isSome = scan_contains l n p := by
  unfold scan_find scan_contains
  induction List.range n with
  | nil => rfl
  | cons hd tl ih =>
    by_cases h : l[hd]? = some p
    · simp [List.findSome?_cons, List.any_cons, h]
    · simp only [List.findSome?_cons, List.any_cons, h, if_neg h, decide_eq_true_eq]
      simp [ih, h]

lemma listed_self (l : List Nat) : listed l l.length = l := by
  unfold listed
  induction l with
  | nil => rfl
  | cons hd tl ih =>
    rw [List.length_cons, List.range_succ_eq_map, List.filterMap_cons,
        List.filterMap_map]
    simp only [List.getElem?_cons_zero]
    have hfun : ((fun i => (hd :: tl)[i]?) ∘ Nat.succ) = (fun i => tl[i]?) := by
      funext i
      simp [Function.comp]
    rw [hfun, ih]

lemma listed_length_le (l : List Nat) (n : Nat) : (listed l n).length ≤ n := by
  unfold listed
  calc ((List.range n).filterMap (fun i => l[i]?)).length
      ≤ (List.range n).length := List.length_filterMap_le _ _
    _ = n := List.length_range n

lemma foldl_yield_step (user : Nat) (entries : List Nat) :
    ∀ (l : List Nat) (a : Nat),
      l.foldl (yield_step user entries) a =
        (l.filterMap (fun i => entries[i]?)).foldl
          (fun t p => (t + get_mock_yield p user) % 2 ^ 256) a := by
  intro l
  induction l with
  | nil => intro a; rfl
  | cons hd tl ih =>
    intro a
    rw [List.foldl_cons, List.filterMap_cons]
    cases hg : entries[hd]? with
    | none => rw [ih]; simp [yield_step, hg]
    | some p => rw [List.foldl_cons, ih]; simp [yield_step, hg]

lemma foldl_mod_add (M : Nat) (y : Nat → Nat) :
    ∀ (l : List Nat) (a : Nat), a + (l.map y).sum < M →
      l.foldl (fun t p => (t + y p) % M) a = a + (l.map y).sum := by
  intro l
  induction l with
  | nil => intro a _; simp
  | cons hd tl ih =>
    intro a h
    rw [List.map_cons, List.sum_cons] at h ⊢
    have hlt : a + y hd < M :=
      lt_of_le_of_lt (Nat.add_le_add_left (Nat.le_add_right _ _) a) h
    rw [List.foldl_cons, Nat.mod_eq_of_lt hlt, ih (a + y hd) (by omega)]
    omega

lemma get_mock_yield_le (p u : Nat) :
    get_mock_yield p u ≤ 8000000000000000 := by
  unfold get_mock_yield
  split <;> norm_num

lemma get_mock_yield_user (p u1 u2 : Nat) :
    get_mock_yield p u1 = get_mock_yield p u2 := rfl

lemma mapGet_mapInsert (m : List (Nat × Nat)) (k v : Nat) :
    mapGet (mapInsert m k v) k = v := by
  induction m with
  | nil => simp [mapInsert, mapGet, List.find?]
  | cons kv rest ih =>
    by_cases h : kv.1 = k
    · simp [mapInsert, mapGet, List.find?, h]
    · have hb : (kv.1 == k) = false := beq_eq_false_iff_ne.mpr h
      simp only [mapInsert, hb, Bool.false_eq_true, if_false]
      simpa [mapGet, List.find?, hb] using ih

lemma spec_total_yield_lt (s : YieldAggregator) (user : Nat)
    (h : s.protocol_count < 2 ^ 32) : spec_total_yield s user < 2 ^ 256 := by
  unfold spec_total_yield
  have hbound : ((listed s.protocols s.protocol_count).map
      (fun p => get_mock_yield p user)).sum ≤
      ((listed s.protocols s.protocol_count).map
      (fun p => get_mock_yield p user)).length * 8000000000000000 := by
    have := List.sum_le_card_nsmul
      ((listed s.protocols s.protocol_count).map (fun p => get_mock_yield p user))
      8000000000000000 (by
        intro x hx
        obtain ⟨p, _, rfl⟩ := List.mem_map.mp hx
        exact get_mock_yield_le p user)
    simpa [smul_eq_mul] using this
  have hlen : ((listed s.protocols s.protocol_count).map
      (fun p => get_mock_yield p user)).length ≤ s.protocol_count := by
    rw [List.length_map]
    exact listed_length_le _ _
  have h1 : ((listed s.protocols s.protocol_count).map
      (fun p => get_mock_yield p user)).sum ≤ s.protocol_count * 8000000000000000 :=
    le_trans hbound (Nat.mul_le_mul_right _ hlen)
  have h2 : s.protocol_count * 8000000000000000 ≤ (2 ^ 32 - 1) * 8000000000000000 :=
    Nat.mul_le_mul_right _ (by omega)
  have h3 : (2 ^ 32 - 1) * 8000000000000000 < 2 ^ 256 := by norm_num
  omega

lemma get_total_yield_eq_spec (s : YieldAggregator) (user : Nat)
    (h : s.protocol_count < 2 ^ 32) :
    get_total_yield s user = some (spec_total_yield s user) := by
  have hsum : (0 : Nat) + (((List.range s.protocol_count).filterMap
      (fun i => s.protocols[i]?)).map (fun p => get_mock_yield p user)).sum < 2 ^ 256 := by
    rw [Nat.zero_add]
    have h2 := spec_total_yield_lt s user h
    unfold spec_total_yield listed at h2
    exact h2
  simp only [get_total_yield, toU32_of_lt h]
  rw [foldl_yield_step, foldl_mod_add (2 ^ 256) (fun p => get_mock_yield p user) _ 0 hsum]
  unfold spec_total_yield listed
  rw [Nat.zero_add]

lemma scan_contains_count_true {s : YieldAggregator} (hw : WF s) {p : Nat}
    (hp : p ∈ s.protocols) :
    scan_contains s.protocols s.protocol_count p = true := by
  rw [hw]
  exact (scan_contains_iff _ _).mpr hp

lemma scan_contains_count_false {s : YieldAggregator} (hw : WF s) {p : Nat}
    (hp : p ∉ s.protocols) :
    scan_contains s.protocols s.protocol_count p = false := by
  rw [hw]
  cases hb : scan_contains s.protocols s.protocols.length p with
  | false => rfl
  | true => exact absurd ((scan_contains_iff _ _).mp hb) hp

lemma scan_find_count_none {s : YieldAggregator} (hw : WF s) {p : Nat}
    (hp : p ∉ s.protocols) :
    scan_find s.protocols s.protocol_count p = none := by
  have h1 := scan_find_isSome s.protocols s.protocol_count p
  rw [scan_contains_count_false hw hp] at h1
  cases hf : scan_find s.protocols s.protocol_count p with
  | none => rfl
  | some i => rw [hf] at h1; simp at h1

lemma scan_find_count_found {s : YieldAggregator} (hw : WF s) {p : Nat}
    (hp : p ∈ s.protocols) :
    ∃ i, scan_find s.protocols s.protocol_count p = some i := by
  have h1 := scan_find_isSome s.protocols s.protocol_count p
  rw [scan_contains_count_true hw hp] at h1
  cases hf : scan_find s.protocols s.protocol_count p with
  | none => rw [hf] at h1; simp at h1
  | some i => exact ⟨i, rfl⟩

/-! Branch lemmas for the two mutations, one per reachable path. -/

lemma add_protocol_no_op {s : YieldAggregator} {p : Nat} (hw : WF s)
    (hn : s.protocol_count < 2 ^ 32) (hp : p ∈ s.protocols) :
    add_protocol s.owner p s = some (Except.ok s) := by
  simp [add_protocol, toU32_of_lt hn, scan_contains_count_true hw hp]

lemma add_protocol_push {s : YieldAggregator} {p : Nat} (hw : WF s)
    (hn : s.protocol_count < 2 ^ 32) (hp : p ∉ s.protocols) :
    add_protocol s.owner p s = some (Except.ok { s with
      protocols := s.protocols ++ [p],
      protocol_index := mapInsert s.protocol_index p s.protocol_count,
      protocol_count := s.protocol_count + 1 }) := by
  have hlt : s.protocol_count + 1 < 2 ^ 256 := by
    have h2 : (2 : Nat) ^ 32 < 2 ^ 256 := by norm_num
    omega
  norm_num at hlt
  simp [add_protocol, toU32_of_lt hn, scan_contains_count_false hw hp,
    Nat.mod_eq_of_lt hlt]

lemma add_protocol_nonowner {s : YieldAggregator} {caller p : Nat}
    (hc : caller ≠ s.owner) :
    add_protocol caller p s = some (Except.error
      (ContractError.unauthorizedAccount caller)) := by
  simp only [add_protocol, if_neg hc]

lemma add_protocol_panic {s : YieldAggregator} {p : Nat}
    (hn : ¬ s.protocol_count < 2 ^ 32) :
    add_protocol s.owner p s = none := by
  simp [add_protocol, toU32_of_not_lt hn]

lemma remove_protocol_found {s : YieldAggregator} {p : Nat} (hw : WF s)
    (hn : s.protocol_count < 2 ^ 32) (hp : p ∈ s.protocols) :
    remove_protocol s.owner p s = some (Except.ok { s with
      protocols := s.protocols.dropLast,
      protocol_index := mapInsert s.protocol_index p 0,
      protocol_count := s.protocol_count - 1 }) := by
  obtain ⟨i, hf⟩ := scan_find_count_found hw hp
  simp [remove_protocol, toU32_of_lt hn, hf]

lemma remove_protocol_notfound {s : YieldAggregator} {p : Nat} (hw : WF s)
    (hn : s.protocol_count < 2 ^ 32) (hp : p ∉ s.protocols) :
    remove_protocol s.owner p s = some (Except.ok s) := by
  simp [remove_protocol, toU32_of_lt hn, scan_find_count_none hw hp]

lemma remove_protocol_nonowner {s : YieldAggregator} {caller p : Nat}
    (hc : caller ≠ s.owner) :
    remove_protocol caller p s = some (Except.error
      (ContractError.unauthorizedAccount caller)) := by
  simp only [remove_protocol, if_neg hc]

lemma remove_protocol_panic {s : YieldAggregator} {p : Nat}
    (hn : ¬ s.protocol_count < 2 ^ 32) :
    remove_protocol s.owner p s = none := by
  simp [remove_protocol, toU32_of_not_lt hn]

/-! Branch lemmas for the transaction-level post-states. -/

lemma runAdd_mem {s : YieldAggregator} {p : Nat} (hw : WF s)
    (hn : s.protocol_count < 2 ^ 32) (hp : p ∈ s.protocols) :
    runAdd s.owner p s = s := by
  simp [runAdd, add_protocol_no_op hw hn hp]

lemma runAdd_notmem {s : YieldAggregator} {p : Nat} (hw : WF s)
    (hn : s.protocol_count < 2 ^ 32) (hp : p ∉ s.protocols) :
    runAdd s.owner p s = { s with
      protocols := s.protocols ++ [p],
      protocol_index := mapInsert s.protocol_index p s.protocol_count,
      protocol_count := s.protocol_count + 1 } := by
  simp [runAdd, add_protocol_push hw hn hp]

lemma runAdd_nonowner {s : YieldAggregator} {caller p : Nat}
    (hc : caller ≠ s.owner) : runAdd caller p s = s := by
  simp [runAdd, add_protocol_nonowner hc]

lemma runAdd_panic {s : YieldAggregator} {p : Nat}
    (hn : ¬ s.protocol_count < 2 ^ 32) : runAdd s.owner p s = s := by
  simp [runAdd, add_protocol_panic hn]

lemma runRemove_found {s : YieldAggregator} {p : Nat} (hw : WF s)
    (hn : s.protocol_count < 2 ^ 32) (hp : p ∈ s.protocols) :
    runRemove s.owner p s = { s with
      protocols := s.protocols.dropLast,
      protocol_index := mapInsert s.protocol_index p 0,
      protocol_count := s.protocol_count - 1 } := by
  simp [runRemove, remove_protocol_found hw hn hp]

lemma runRemove_notfound {s : YieldAggregator} {p : Nat} (hw : WF s)
    (hn : s.protocol_count < 2 ^ 32) (hp : p ∉ s.protocols) :
    runRemove s.owner p s = s := by
  simp [runRemove, remove_protocol_notfound hw hn hp]

lemma runRemove_nonowner {s : YieldAggregator} {caller p : Nat}
    (hc : caller ≠ s.owner) : runRemove caller p s = s := by
  simp [runRemove, remove_protocol_nonowner hc]

lemma runRemove_panic {s : YieldAggregator} {p : Nat}
    (hn : ¬ s.protocol_count < 2 ^ 32) : runRemove s.owner p s = s := by
  simp [runRemove, remove_protocol_panic hn]

lemma get_protocols_of_WF {s : YieldAggregator} (hw : WF s)
    (hn : s.protocol_count < 2 ^ 32) :
    get_protocols s = some s.protocols := by
  simp only [get_protocols, toU32_of_lt hn]
  rw [hw, listed_self]

lemma is_protocol_tracked_of_mem {s : YieldAggregator} {p : Nat} (hw : WF s)
    (hn : s.protocol_count < 2 ^ 32) (hp : p ∈ s.protocols) :
    is_protocol_tracked s p = some true := by
  simp only [is_protocol_tracked, toU32_of_lt hn, scan_contains_count_true hw hp]

/-! ### Sample states used by the witnesses -/

/-- A two-entry registry owned by address 7: protocols 3 and 4 with their
insertion positions recorded in the index mapping. -/
def sampleA : YieldAggregator :=
  { owner := 7, protocols := [3, 4], protocol_index := [(3, 0), (4, 1)],
    protocol_count := 2 }

/-- The freshly constructed registry owned by address 1. -/
def sample0 : YieldAggregator :=
  { owner := 1, protocols := [], protocol_index := [], protocol_count := 0 }

/-! ### Claim theorems -/

/-- C1: called by the owner on a well-formed registry, `remove_protocol` on
a protocol present in `entries` removes the *last* element of `entries` (not
necessarily the protocol itself), resets the protocol's `index_of` slot to
zero, and decrements the count; on an absent protocol it returns success
with no state change. -/
theorem remove_protocol_spec (caller p : Nat) (s : YieldAggregator)
    (hc : caller = s.owner) (hw : WF s) (hn : s.protocol_count < 2 ^ 32) :
    (p ∈ s.protocols →
      remove_protocol caller p s = some (Except.ok { s with
        protocols := s.protocols.dropLast,
        protocol_index := mapInsert s.protocol_index p 0,
        protocol_count := s.protocol_count - 1 }) ∧
      mapGet (mapInsert s.protocol_index p 0) p = 0) ∧
    (p ∉ s.protocols →
      remove_protocol caller p s = some (Except.ok s)) := by
  subst hc
  constructor
  · intro hp
    exact ⟨remove_protocol_found hw hn hp, mapGet_mapInsert _ _ _⟩
  · intro hp
    exact remove_protocol_notfound hw hn hp

/-- Witness for C1: removing protocol 3 from the registry `[3, 4]` pops the
last entry 4 (leaving `[3]`), zeroes the index slot of 3, and sets the count
to 1. -/
theorem remove_protocol_spec_witness :
    7 = sampleA.owner ∧ WF sampleA ∧ sampleA.protocol_count < 2 ^ 32 ∧
    ((3 ∈ sampleA.protocols →
      remove_protocol 7 3 sampleA = some (Except.ok { sampleA with
        protocols := sampleA.protocols.dropLast,
        protocol_index := mapInsert sampleA.protocol_index 3 0,
        protocol_count := sampleA.protocol_count - 1 }) ∧
      mapGet (mapInsert sampleA.protocol_index 3 0) 3 = 0) ∧
    (3 ∉ sampleA.protocols →
      remove_protocol 7 3 sampleA = some (Except.ok sampleA))) :=
  ⟨rfl, by decide, by decide,
    remove_protocol_spec 7 3 sampleA rfl (by decide) (by decide)⟩

/-- C2: the would-overflow condition of `get_total_yield` is unreachable and
the function never returns a wrapped-around value: the plain mathematical
sum of the per-protocol yields is always within the 256-bit range, the call
returns exactly that unwrapped sum, and (the claim's conditional) were the
sum to exceed the maximum the call would not return a value. -/
theorem get_total_yield_no_overflow (s : YieldAggregator) (user : Nat)
    (hn : s.protocol_count < 2 ^ 32) :
    spec_total_yield s user ≤ 2 ^ 256 - 1 ∧
    get_total_yield s user = some (spec_total_yield s user) ∧
    (2 ^ 256 - 1 < spec_total_yield s user → get_total_yield s user = none) := by
  have hb := spec_total_yield_lt s user hn
  refine ⟨by omega, get_total_yield_eq_spec s user hn, fun hgt => ?_⟩
  omega

/-- Witness for C2 on the two-entry registry. -/
theorem get_total_yield_no_overflow_witness :
    sampleA.protocol_count < 2 ^ 32 ∧
    (spec_total_yield sampleA 9 ≤ 2 ^ 256 - 1 ∧
    get_total_yield sampleA 9 = some (spec_total_yield sampleA 9) ∧
    (2 ^ 256 - 1 < spec_total_yield sampleA 9 → get_total_yield sampleA 9 = none)) :=
  ⟨by decide, get_total_yield_no_overflow sampleA 9 (by decide)⟩

/-- C3: `get_total_yield user` equals the sum, in registry order, of the
per-protocol mock yield over exactly the list returned by `get_protocols`,
and it is 0 for an empty registry. -/
theorem get_total_yield_sum_law (s : YieldAggregator) (user : Nat)
    (hn : s.protocol_count < 2 ^ 32) :
    get_protocols s = some (listed s.protocols s.protocol_count) ∧
    get_total_yield s user = some (((listed s.protocols s.protocol_count).map
      (fun p => get_mock_yield p user)).sum) ∧
    (s.protocol_count = 0 → get_total_yield s user = some 0) := by
  have h := get_total_yield_eq_spec s user hn
  unfold spec_total_yield at h
  refine ⟨by simp only [get_protocols, toU32_of_lt hn], h, fun h0 => ?_⟩
  rw [h, h0]
  rfl

/-- Witness for C3 on the two-entry registry: the total is the sum of the
mock yields of protocols 3 and 4. -/
theorem get_total_yield_sum_law_witness :
    sampleA.protocol_count < 2 ^ 32 ∧
    (get_protocols sampleA = some (listed sampleA.protocols sampleA.protocol_count) ∧
    get_total_yield sampleA 9 = some (((listed sampleA.protocols sampleA.protocol_count).map
      (fun p => get_mock_yield p 9)).sum) ∧
    (sampleA.protocol_count = 0 → get_total_yield sampleA 9 = some 0)) :=
  ⟨by decide, get_total_yield_sum_law sampleA 9 (by decide)⟩

/-- C5: a mutation attempted by a non-owner fails with the Unauthorized
error, and the post-transaction state is unchanged, so `get_protocols` and
`get_protocol_count` observe the same results as before the call. -/
theorem nonowner_mutation_unauthorized (caller p q : Nat) (s : YieldAggregator)
    (hc : caller ≠ s.owner) :
    add_protocol caller p s = some (Except.error
      (ContractError.unauthorizedAccount caller)) ∧
    remove_protocol caller q s = some (Except.error
      (ContractError.unauthorizedAccount caller)) ∧
    runAdd caller p s = s ∧ runRemove caller q s = s ∧
    get_protocols (runAdd caller p s) = get_protocols s ∧
    get_protocol_count (runAdd caller p s) = get_protocol_count s ∧
    get_protocols (runRemove caller q s) = get_protocols s ∧
    get_protocol_count (runRemove caller q s) = get_protocol_count s := by
  have hra := runAdd_nonowner (p := p) hc
  have hrr := runRemove_nonowner (p := q) hc
  exact ⟨add_protocol_nonowner hc, remove_protocol_nonowner hc, hra, hrr,
    by rw [hra], by rw [hra], by rw [hrr], by rw [hrr]⟩

/-- Witness for C5: caller 5 is not the owner 7 of the sample registry. -/
theorem nonowner_mutation_unauthorized_witness :
    5 ≠ sampleA.owner ∧
    (add_protocol 5 11 sampleA = some (Except.error
      (ContractError.unauthorizedAccount 5)) ∧
    remove_protocol 5 3 sampleA = some (Except.error
      (ContractError.unauthorizedAccount 5)) ∧
    runAdd 5 11 sampleA = sampleA ∧ runRemove 5 3 sampleA = sampleA ∧
    get_protocols (runAdd 5 11 sampleA) = get_protocols sampleA ∧
    get_protocol_count (runAdd 5 11 sampleA) = get_protocol_count sampleA ∧
    get_protocols (runRemove 5 3 sampleA) = get_protocols sampleA ∧
    get_protocol_count (runRemove 5 3 sampleA) = get_protocol_count sampleA) :=
  ⟨by decide, nonowner_mutation_unauthorized 5 11 3 sampleA (by decide)⟩

/-- C9: the reference per-protocol yield lookup depends only on the
protocol's address, never on the user, so on every fixed registry state
`get_total_yield` returns the same result for any two users. -/
theorem get_total_yield_user_independent (s : YieldAggregator) (p u1 u2 : Nat) :
    get_mock_yield p u1 = get_mock_yield p u2 ∧
    get_total_yield s u1 = get_total_yield s u2 :=
  ⟨rfl, rfl⟩

/-- C4: owner calls to `add_protocol` are idempotent: two successive calls
end in the same final registry state as one (a reverted second call keeps
the state of the first), the count grows by at most one, and adding an
already-present protocol succeeds with no state change. -/
theorem add_protocol_idempotent (caller p : Nat) (s : YieldAggregator)
    (hc : caller = s.owner) (hw : WF s) (hn : s.protocol_count < 2 ^ 32) :
    runAdd caller p (runAdd caller p s) = runAdd caller p s ∧
    get_protocol_count (runAdd caller p s) ≤ get_protocol_count s + 1 ∧
    (p ∈ s.protocols → add_protocol caller p s = some (Except.ok s)) := by
  subst hc
  by_cases hp : p ∈ s.protocols
  · have hrun := runAdd_mem hw hn hp
    refine ⟨?_, ?_, fun _ => add_protocol_no_op hw hn hp⟩
    · rw [hrun]
      exact hrun
    · rw [hrun]
      exact Nat.le_succ _
  · have hrun := runAdd_notmem hw hn hp
    refine ⟨?_, ?_, fun hmem => absurd hmem hp⟩
    · rw [hrun]
      by_cases h2 : s.protocol_count + 1 < 2 ^ 32
      · have hw1 : WF { s with
            protocols := s.protocols ++ [p],
            protocol_index := mapInsert s.protocol_index p s.protocol_count,
            protocol_count := s.protocol_count + 1 } := by
          show s.protocol_count + 1 = (s.protocols ++ [p]).length
          rw [List.length_append, hw]
          rfl
        have hmem1 : p ∈ s.protocols ++ [p] :=
          List.mem_append_right _ (List.mem_singleton.mpr rfl)
        exact runAdd_mem hw1 h2 hmem1
      · have h2x : ¬ ({ s with
            protocols := s.protocols ++ [p],
            protocol_index := mapInsert s.protocol_index p s.protocol_count,
            protocol_count := s.protocol_count + 1 } :
              YieldAggregator).protocol_count < 2 ^ 32 := h2
        exact runAdd_panic h2x
    · rw [hrun]
      exact Nat.le_refl _

/-- Witness for C4: adding the fresh protocol 11 to the two-entry registry. -/
theorem add_protocol_idempotent_witness :
    7 = sampleA.owner ∧ WF sampleA ∧ sampleA.protocol_count < 2 ^ 32 ∧
    (runAdd 7 11 (runAdd 7 11 sampleA) = runAdd 7 11 sampleA ∧
    get_protocol_count (runAdd 7 11 sampleA) ≤ get_protocol_count sampleA + 1 ∧
    (11 ∈ sampleA.protocols → add_protocol 7 11 sampleA = some (Except.ok sampleA))) :=
  ⟨rfl, by decide, by decide,
    add_protocol_idempotent 7 11 sampleA rfl (by decide) (by decide)⟩

/-- C6: after an owner call to `add_protocol p` on a well-formed,
duplicate-free registry, `is_protocol_tracked p` is true and `p` appears
exactly once in the list returned by `get_protocols`; neither `add_protocol`
nor `remove_protocol` ever introduces a duplicate into `entries`. -/
theorem add_protocol_membership (caller p : Nat) (s : YieldAggregator)
    (hc : caller = s.owner) (hw : WF s) (hd : s.protocols.Nodup)
    (hn : s.protocol_count + 1 < 2 ^ 32) :
    is_protocol_tracked (runAdd caller p s) p = some true ∧
    get_protocols (runAdd caller p s) = some ((runAdd caller p s).protocols) ∧
    ((runAdd caller p s).protocols).count p = 1 ∧
    ((runAdd caller p s).protocols).Nodup ∧
    (∀ q, ((runRemove caller q s).protocols).Nodup) := by
  subst hc
  have hn0 : s.protocol_count < 2 ^ 32 := by omega
  have hrem : ∀ q, ((runRemove s.owner q s).protocols).Nodup := by
    intro q
    by_cases hq : q ∈ s.protocols
    · rw [runRemove_found hw hn0 hq]
      exact List.Nodup.sublist (List.dropLast_sublist _) hd
    · rw [runRemove_notfound hw hn0 hq]
      exact hd
  by_cases hp : p ∈ s.protocols
  · have hrun := runAdd_mem hw hn0 hp
    rw [hrun]
    exact ⟨is_protocol_tracked_of_mem hw hn0 hp, get_protocols_of_WF hw hn0,
      List.count_eq_one_of_mem hd hp, hd, hrem⟩
  · have hrun := runAdd_notmem hw hn0 hp
    rw [hrun]
    have hw1 : WF { s with
        protocols := s.protocols ++ [p],
        protocol_index := mapInsert s.protocol_index p s.protocol_count,
        protocol_count := s.protocol_count + 1 } := by
      show s.protocol_count + 1 = (s.protocols ++ [p]).length
      rw [List.length_append, hw]
      rfl
    have hmem1 : p ∈ s.protocols ++ [p] :=
      List.mem_append_right _ (List.mem_singleton.mpr rfl)
    refine ⟨is_protocol_tracked_of_mem hw1 hn hmem1, get_protocols_of_WF hw1 hn,
      ?_, ?_, hrem⟩
    · show (s.protocols ++ [p]).count p = 1
      rw [List.count_append, List.count_eq_zero_of_not_mem hp,
        List.count_singleton_self]
    · show (s.protocols ++ [p]).Nodup
      exact List.nodup_append.mpr ⟨hd, List.nodup_singleton p,
        List.disjoint_singleton.mpr hp⟩

/-- Witness for C6: adding the fresh protocol 11 to the two-entry registry. -/
theorem add_protocol_membership_witness :
    7 = sampleA.owner ∧ WF sampleA ∧ sampleA.protocols.Nodup ∧
    sampleA.protocol_count + 1 < 2 ^ 32 ∧
    (is_protocol_tracked (runAdd 7 11 sampleA) 11 = some true ∧
    get_protocols (runAdd 7 11 sampleA) = some ((runAdd 7 11 sampleA).protocols) ∧
    ((runAdd 7 11 sampleA).protocols).count 11 = 1 ∧
    ((runAdd 7 11 sampleA).protocols).Nodup ∧
    (∀ q, ((runRemove 7 q sampleA).protocols).Nodup)) :=
  ⟨rfl, by decide, by decide, by decide,
    add_protocol_membership 7 11 sampleA rfl (by decide) (by decide) (by decide)⟩

/-- C7: the invariant `protocol_count = |protocols|` holds in the state
built by the constructor and is preserved by every `add_protocol` and
`remove_protocol` transaction, across the success, no-op, unauthorized and
panic (reverting) paths alike; the read-only operations do not change
state. -/
theorem count_length_invariant (o caller p : Nat) (s0 s : YieldAggregator) :
    (constructor o = Except.ok s0 → WF s0) ∧
    (WF s → WF (runAdd caller p s) ∧ WF (runRemove caller p s)) := by
  constructor
  · intro h
    unfold constructor at h
    by_cases ho : o = 0
    · rw [if_pos ho] at h
      cases h
    · rw [if_neg ho] at h
      injection h with h
      rw [← h]
      rfl
  · intro hw
    by_cases hc : caller = s.owner
    · subst hc
      by_cases hn : s.protocol_count < 2 ^ 32
      · constructor
        · by_cases hp : p ∈ s.protocols
          · rw [runAdd_mem hw hn hp]
            exact hw
          · rw [runAdd_notmem hw hn hp]
            show s.protocol_count + 1 = (s.protocols ++ [p]).length
            rw [List.length_append, hw]
            rfl
        · by_cases hp : p ∈ s.protocols
          · rw [runRemove_found hw hn hp]
            show s.protocol_count - 1 = s.protocols.dropLast.length
            rw [List.length_dropLast, hw]
          · rw [runRemove_notfound hw hn hp]
            exact hw
      · rw [runAdd_panic hn, runRemove_panic hn]
        exact ⟨hw, hw⟩
    · rw [runAdd_nonowner hc, runRemove_nonowner hc]
      exact ⟨hw, hw⟩

/-- Witness for C7: the constructor with owner 1 really does build
`sample0`, the sample registry really is well-formed, and the invariant
conclusions hold at those concrete states. -/
theorem count_length_invariant_witness :
    constructor 1 = Except.ok sample0 ∧ WF sampleA ∧ WF sample0 ∧
    WF (runAdd 7 3 sampleA) ∧ WF (runRemove 7 3 sampleA) :=
  ⟨rfl, by decide,
    (count_length_invariant 1 7 3 sample0 sampleA).1 rfl,
    ((count_length_invariant 1 7 3 sample0 sampleA).2 (by decide)).1,
    ((count_length_invariant 1 7 3 sample0 sampleA).2 (by decide)).2⟩

/-- C8 counterexample: a successful owner call to `add_protocol` emits no
event at all — the emitted list is empty, not a single `ProtocolAdded`, so
the events are not emitted exactly once per successful call. -/
theorem add_protocol_emits_nothing_cx :
    add_protocol 1 5 sample0 = some (Except.ok
      { owner := 1, protocols := [5],
        protocol_index := [(5, 0)], protocol_count := 1 }) ∧
    (add_protocol_emitted 1 5 sample0).length = 0 :=
  ⟨rfl, rfl⟩

/-- C8 amended: `ProtocolAdded`, `ProtocolRemoved` and `YieldCalculated` are
declared in the contract's `sol!` block but no operation contains a log
statement, so every call — successful or not — emits the empty event
list. -/
theorem no_events_emitted (caller p : Nat) (s : YieldAggregator) (user : Nat) :
    add_protocol_emitted caller p s = [] ∧
    remove_protocol_emitted caller p s = [] ∧
    get_total_yield_emitted s user = [] :=
  ⟨rfl, rfl, rfl⟩

/-- C10: whenever the stored `protocol_count` is at most `2 ^ 32 - 1`, the
`to::<u32>()` conversion performed by every iterating operation succeeds,
and all five of them run to completion without reaching a panic branch. -/
theorem ops_total_below_u32 (caller p u : Nat) (s : YieldAggregator)
    (hn : s.protocol_count ≤ 2 ^ 32 - 1) :
    (toU32 s.protocol_count).isSome = true ∧
    (add_protocol caller p s).isSome = true ∧
    (remove_protocol caller p s).isSome = true ∧
    (get_total_yield s u).isSome = true ∧
    (get_protocols s).isSome = true ∧
    (is_protocol_tracked s p).isSome = true := by
  have h1 : (1 : Nat) ≤ 2 ^ 32 := Nat.one_le_two_pow
  have hn' : s.protocol_count < 2 ^ 32 := by omega
  refine ⟨?_, ?_, ?_, ?_, ?_, ?_⟩
  · rw [toU32_of_lt hn']
    rfl
  · by_cases hc : caller = s.owner
    · simp only [add_protocol, if_pos hc, toU32_of_lt hn']
      split <;> rfl
    · simp only [add_protocol, if_neg hc]
      rfl
  · by_cases hc : caller = s.owner
    · simp only [remove_protocol, if_pos hc, toU32_of_lt hn']
      split <;> rfl
    · simp only [remove_protocol, if_neg hc]
      rfl
  · simp only [get_total_yield, toU32_of_lt hn']
    rfl
  · simp only [get_protocols, toU32_of_lt hn']
    rfl
  · simp only [is_protocol_tracked, toU32_of_lt hn']
    rfl

/-- Witness for C10 on the two-entry registry. -/
theorem ops_total_below_u32_witness :
    sampleA.protocol_count ≤ 2 ^ 32 - 1 ∧
    ((toU32 sampleA.protocol_count).isSome = true ∧
    (add_protocol 7 11 sampleA).isSome = true ∧
    (remove_protocol 7 3 sampleA).isSome = true ∧
    (get_total_yield sampleA 9).isSome = true ∧
    (get_protocols sampleA).isSome = true ∧
    (is_protocol_tracked sampleA 3).isSome = true) := by
  refine ⟨by decide, ?_⟩
  have h := ops_total_below_u32 7 11 9 sampleA (by decide)
  refine ⟨h.1, h.2.1, ?_, h.2.2.2.1, h.2.2.2.2.1, ?_⟩
  · exact (ops_total_below_u32 7 3 9 sampleA (by decide)).2.2.1
  · exact (ops_total_below_u32 7 3 9 sampleA (by decide)).2.2.2.2.2

end YieldAgg
